import Mathlib

/-!
Verification of the LLRPC link-level RPC router (src/main.c) against its
natural-language specification.

The program is a single-file C daemon: a packed 24-byte wire header
(`struct rpc_message_header`), a message constructor (`message_init`) with a
process-lifetime `uint32_t` sequence counter, a raw-socket endpoint
(`endpoint_open` / `endpoint_close`), a SIGALRM heartbeat timer setting a
single boolean flag, and a poll-driven event loop (`server`).

The embedding below translates each of these into executable Lean
definitions.  Machine integers are modelled as `Nat` with explicit
`% 2^w` where the C code stores into a fixed-width field; the wire image of
the packed struct is modelled as a `List Nat` of byte values.  The C source
performs no byte-order conversion (no `htons`/`htonl`), so the in-memory —
and hence on-wire — byte order of each field is the host's native order;
the serializer is therefore parameterised by a `hostBE : Bool` flag
(`true` = big-endian host, `false` = little-endian host).
-/

namespace LLRPC

/-! ## Byte-level primitives -/

/-- Big-endian byte image of `v` in `w` bytes (most significant byte first). -/
def beBytes : Nat → Nat → List Nat
  | 0, _ => []
  | w+1, v => beBytes w (v / 256) ++ [v % 256]

/-- Little-endian byte image of `v` in `w` bytes (least significant byte first). -/
def leBytes : Nat → Nat → List Nat
  | 0, _ => []
  | w+1, v => v % 256 :: leBytes w (v / 256)

/-- Value of a big-endian byte list. -/
def beVal (bs : List Nat) : Nat := bs.foldl (fun a b => a * 256 + b) 0

/-- Value of a little-endian byte list. -/
def leVal (bs : List Nat) : Nat := bs.foldr (fun b a => a * 256 + b) 0

/-- In-memory byte image of a `w`-byte unsigned field holding `v`, on a host
whose native byte order is big-endian iff `hostBE`.  The C source stores
fields by plain assignment and never converts byte order, so this is also
the field's on-wire image. -/
def fieldBytes (hostBE : Bool) (w v : Nat) : List Nat :=
  if hostBE then beBytes w v else leBytes w v

/-- Value read back from a field's byte image on the same host. -/
def fieldVal (hostBE : Bool) (bs : List Nat) : Nat :=
  if hostBE then beVal bs else leVal bs

/-! ## The wire header (struct rpc_message_header, packed) -/

/-- `struct rpc_message_header` from src/main.c:
`uint16_t type; uint32_t endpoint_id; uint32_t sequence_id; uint16_t length;
uint64_t timestamp; uint32_t crc32;` with `__attribute__((packed))`. -/
structure rpc_message_header where
  type : Nat
  endpoint_id : Nat
  sequence_id : Nat
  length : Nat
  timestamp : Nat
  crc32 : Nat
  deriving DecidableEq, Repr

/-- `sizeof(struct rpc_message_header)` for the packed struct: 2+4+4+2+8+4. -/
def headerWireSize : Nat := 24

/-- Message type enumeration values from `enum rpc_message_type`. -/
def RPC_MESSAGE_ECHO_REQ : Nat := 0

def RPC_MESSAGE_ECHO_RESP : Nat := 1

def RPC_MESSAGE_COMMAND_REQ : Nat := 2

def RPC_MESSAGE_COMMAND_RESP : Nat := 3

/-- The byte image of the packed struct, i.e. exactly the bytes
`sendto(fd, &msg, sizeof(msg), ...)` puts on the wire: the six fields in
declaration order, no padding (the struct is `packed`), each field in the
host's native byte order (the code performs no `htons`/`htonl`). -/
def serializeHeader (hostBE : Bool) (h : rpc_message_header) : List Nat :=
  fieldBytes hostBE 2 h.type ++
    (fieldBytes hostBE 4 h.endpoint_id ++
      (fieldBytes hostBE 4 h.sequence_id ++
        (fieldBytes hostBE 2 h.length ++
          (fieldBytes hostBE 8 h.timestamp ++ fieldBytes hostBE 4 h.crc32))))

/-- Wire layout exactly as the specification words it (§6): the six fields in
order, total 24 bytes, every multi-byte integer in network (big-endian)
byte order.  This definition follows the spec's words and is compared with
`serializeHeader`, which follows the source. -/
def specWireBytes (h : rpc_message_header) : List Nat :=
  beBytes 2 h.type ++
    (beBytes 4 h.endpoint_id ++
      (beBytes 4 h.sequence_id ++
        (beBytes 2 h.length ++
          (beBytes 8 h.timestamp ++ beBytes 4 h.crc32))))

/-- Reading the packed struct's fields back off a byte buffer (this is what
the receive path does implicitly: `recvfrom` writes raw bytes into the
struct and `message_dump` reads the fields).  Offsets 0,2,6,10,12,20 are
the packed field offsets. -/
def deserializeHeader (hostBE : Bool) (bs : List Nat) : rpc_message_header :=
  ⟨fieldVal hostBE (bs.take 2),
   fieldVal hostBE ((bs.drop 2).take 4),
   fieldVal hostBE ((bs.drop 6).take 4),
   fieldVal hostBE ((bs.drop 10).take 2),
   fieldVal hostBE ((bs.drop 12).take 8),
   fieldVal hostBE ((bs.drop 20).take 4)⟩

/-! ## message_init

```c
static void message_init(struct rpc_message_header *header, enum rpc_message_type type)
{
    static uint32_t seq = 1;
    header->type        = type;
    header->endpoint_id = 0;
    header->sequence_id = seq++;
    header->length      = sizeof(*header);
    header->timestamp   = time(NULL);
    header->crc32       = 0;
}
```

The static counter is made explicit: `seq` is passed in and the updated
counter is returned.  Stores into the fixed-width fields truncate modulo
the field width, exactly as C unsigned conversion does; `seq++` on a
`uint32_t` wraps modulo `2^32`.  `now` is the value returned by
`time(NULL)`. -/
def message_init (seq : Nat) (t : Nat) (now : Nat) : rpc_message_header × Nat :=
  (⟨t % 2^16, 0, seq % 2^32, headerWireSize, now % 2^64, 0⟩, (seq + 1) % 2^32)

/-- Counter value held by `message_init`'s static `seq` after `k` calls
(initialised to 1; each call stores the current value and post-increments
with `uint32_t` wraparound). -/
def seqAfterCalls : Nat → Nat
  | 0 => 1
  | k+1 => (message_init (seqAfterCalls k) RPC_MESSAGE_ECHO_REQ 0).2

/-- The `sequence_id` stored into the header by the `k`-th `message_init`
call of a process lifetime (`k ≥ 1`). -/
def nthSeq (k : Nat) : Nat :=
  (message_init (seqAfterCalls (k - 1)) RPC_MESSAGE_ECHO_REQ 0).1.sequence_id

/-! ## List slicing helpers -/

theorem takeLenAppend {α : Type} (l1 l2 : List α) : (l1 ++ l2).take l1.length = l1 := by
  induction l1 with
  | nil => simp
  | cons x xs ih => simp [ih]

theorem dropLenAppend {α : Type} (l1 l2 : List α) : (l1 ++ l2).drop l1.length = l2 := by
  induction l1 with
  | nil => simp
  | cons x xs ih => simp [ih]

theorem takeOfLen {α : Type} {l1 : List α} {n : Nat} (l2 : List α) (h : l1.length = n) :
    (l1 ++ l2).take n = l1 := by
  rw [← h]; exact takeLenAppend l1 l2

theorem dropOfLen {α : Type} {l1 : List α} {n : Nat} (h : l1.length = n) (l2 : List α) :
    (l1 ++ l2).drop n = l2 := by
  rw [← h]; exact dropLenAppend l1 l2

theorem takeAllOfLen {α : Type} {l : List α} {n : Nat} (h : l.length = n) : l.take n = l := by
  rw [← h]; exact List.take_length l

theorem beBytes_length (w v : Nat) : (beBytes w v).length = w := by
  induction w generalizing v with
  | zero => rfl
  | succ w ih => simp [beBytes, ih]

theorem leBytes_length (w v : Nat) : (leBytes w v).length = w := by
  induction w generalizing v with
  | zero => rfl
  | succ w ih => simp [leBytes, ih]

theorem fieldBytes_length (hostBE : Bool) (w v : Nat) : (fieldBytes hostBE w v).length = w := by
  cases hostBE <;> simp [fieldBytes, beBytes_length, leBytes_length]

theorem leVal_cons (x : Nat) (t : List Nat) : leVal (x :: t) = leVal t * 256 + x := rfl

theorem beVal_append_singleton (l : List Nat) (x : Nat) :
    beVal (l ++ [x]) = beVal l * 256 + x := by
  simp [beVal, List.foldl_append]

theorem leVal_leBytes (w v : Nat) (hv : v < 256^w) : leVal (leBytes w v) = v := by
  induction w generalizing v with
  | zero =>
    have h1 : v < 1 := by simpa using hv
    have h0 : v = 0 := by omega
    simp [h0, leBytes, leVal]
  | succ w ih =>
    have hdiv : v / 256 < 256^w := by
      rw [Nat.div_lt_iff_lt_mul (by norm_num : 0 < 256)]
      calc v < 256^(w+1) := hv
        _ = 256^w * 256 := by rw [pow_succ]
    rw [show leBytes (w+1) v = v % 256 :: leBytes w (v / 256) from rfl, leVal_cons, ih _ hdiv]
    omega

theorem beVal_beBytes (w v : Nat) (hv : v < 256^w) : beVal (beBytes w v) = v := by
  induction w generalizing v with
  | zero =>
    have h1 : v < 1 := by simpa using hv
    have h0 : v = 0 := by omega
    simp [h0, beBytes, beVal]
  | succ w ih =>
    have hdiv : v / 256 < 256^w := by
      rw [Nat.div_lt_iff_lt_mul (by norm_num : 0 < 256)]
      calc v < 256^(w+1) := hv
        _ = 256^w * 256 := by rw [pow_succ]
    rw [show beBytes (w+1) v = beBytes w (v / 256) ++ [v % 256] from rfl,
      beVal_append_singleton, ih _ hdiv]
    omega

theorem fieldVal_fieldBytes (hostBE : Bool) (w v : Nat) (hv : v < 256^w) :
    fieldVal hostBE (fieldBytes hostBE w v) = v := by
  cases hostBE <;> simp [fieldVal, fieldBytes]
  · exact leVal_leBytes w v hv
  · exact beVal_beBytes w v hv

/-- Slicing a six-part concatenation with the header's field widths at the
packed field offsets. -/
theorem sixSlices {α : Type} (A B C D E F : List α)
    (hA : A.length = 2) (hB : B.length = 4) (hC : C.length = 4)
    (hD : D.length = 2) (hE : E.length = 8) (hF : F.length = 4) :
    (A ++ (B ++ (C ++ (D ++ (E ++ F))))).take 2 = A ∧
    ((A ++ (B ++ (C ++ (D ++ (E ++ F))))).drop 2).take 4 = B ∧
    ((A ++ (B ++ (C ++ (D ++ (E ++ F))))).drop 6).take 4 = C ∧
    ((A ++ (B ++ (C ++ (D ++ (E ++ F))))).drop 10).take 2 = D ∧
    ((A ++ (B ++ (C ++ (D ++ (E ++ F))))).drop 12).take 8 = E ∧
    ((A ++ (B ++ (C ++ (D ++ (E ++ F))))).drop 20).take 4 = F ∧
    (A ++ (B ++ (C ++ (D ++ (E ++ F))))).length = 24 := by
  have d2 : (A ++ (B ++ (C ++ (D ++ (E ++ F))))).drop 2 = B ++ (C ++ (D ++ (E ++ F))) :=
    dropOfLen hA _
  have d6 : (A ++ (B ++ (C ++ (D ++ (E ++ F))))).drop 6 = C ++ (D ++ (E ++ F)) := by
    have h64 : (6 : Nat) = 2 + 4 := by norm_num
    rw [h64, ← List.drop_drop, d2]
    exact dropOfLen hB _
  have d10 : (A ++ (B ++ (C ++ (D ++ (E ++ F))))).drop 10 = D ++ (E ++ F) := by
    have h104 : (10 : Nat) = 6 + 4 := by norm_num
    rw [h104, ← List.drop_drop, d6]
    exact dropOfLen hC _
  have d12 : (A ++ (B ++ (C ++ (D ++ (E ++ F))))).drop 12 = E ++ F := by
    have h122 : (12 : Nat) = 10 + 2 := by norm_num
    rw [h122, ← List.drop_drop, d10]
    exact dropOfLen hD _
  have d20 : (A ++ (B ++ (C ++ (D ++ (E ++ F))))).drop 20 = F := by
    have h208 : (20 : Nat) = 12 + 8 := by norm_num
    rw [h208, ← List.drop_drop, d12]
    exact dropOfLen hE _
  refine ⟨takeOfLen _ hA, ?_, ?_, ?_, ?_, ?_, ?_⟩
  · rw [d2]; exact takeOfLen _ hB
  · rw [d6]; exact takeOfLen _ hC
  · rw [d10]; exact takeOfLen _ hD
  · rw [d12]; exact takeOfLen _ hE
  · rw [d20]; exact takeAllOfLen hF
  · simp [hA, hB, hC, hD, hE, hF]

theorem serializeHeader_slices (hostBE : Bool) (h : rpc_message_header) :
    (serializeHeader hostBE h).take 2 = fieldBytes hostBE 2 h.type ∧
    ((serializeHeader hostBE h).drop 2).take 4 = fieldBytes hostBE 4 h.endpoint_id ∧
    ((serializeHeader hostBE h).drop 6).take 4 = fieldBytes hostBE 4 h.sequence_id ∧
    ((serializeHeader hostBE h).drop 10).take 2 = fieldBytes hostBE 2 h.length ∧
    ((serializeHeader hostBE h).drop 12).take 8 = fieldBytes hostBE 8 h.timestamp ∧
    ((serializeHeader hostBE h).drop 20).take 4 = fieldBytes hostBE 4 h.crc32 ∧
    (serializeHeader hostBE h).length = 24 :=
  sixSlices _ _ _ _ _ _ (fieldBytes_length _ 2 _) (fieldBytes_length _ 4 _)
    (fieldBytes_length _ 4 _) (fieldBytes_length _ 2 _) (fieldBytes_length _ 8 _)
    (fieldBytes_length _ 4 _)

/-- Reading the packed struct back from its own byte image recovers every
field, for any host byte order, provided each field value fits its width. -/
theorem deserialize_serialize (hostBE : Bool) (h : rpc_message_header)
    (h1 : h.type < 256^2) (h2 : h.endpoint_id < 256^4) (h3 : h.sequence_id < 256^4)
    (h4 : h.length < 256^2) (h5 : h.timestamp < 256^8) (h6 : h.crc32 < 256^4) :
    deserializeHeader hostBE (serializeHeader hostBE h) = h := by
  obtain ⟨s1, s2, s3, s4, s5, s6, _⟩ := serializeHeader_slices hostBE h
  unfold deserializeHeader
  rw [s1, s2, s3, s4, s5, s6, fieldVal_fieldBytes _ _ _ h1, fieldVal_fieldBytes _ _ _ h2,
    fieldVal_fieldBytes _ _ _ h3, fieldVal_fieldBytes _ _ _ h4, fieldVal_fieldBytes _ _ _ h5,
    fieldVal_fieldBytes _ _ _ h6]

theorem serializeHeader_length (hostBE : Bool) (h : rpc_message_header) :
    (serializeHeader hostBE h).length = headerWireSize :=
  (serializeHeader_slices hostBE h).2.2.2.2.2.2

/-- Bounds on the fields produced by `message_init`. -/
theorem message_init_bounds (seq t now : Nat) :
    (message_init seq t now).1.type < 256^2 ∧
    (message_init seq t now).1.endpoint_id < 256^4 ∧
    (message_init seq t now).1.sequence_id < 256^4 ∧
    (message_init seq t now).1.length < 256^2 ∧
    (message_init seq t now).1.timestamp < 256^8 ∧
    (message_init seq t now).1.crc32 < 256^4 := by
  refine ⟨?_, by norm_num [message_init], ?_, by norm_num [message_init, headerWireSize],
    ?_, by norm_num [message_init]⟩
  · have : t % 2^16 < 2^16 := Nat.mod_lt _ (by norm_num)
    simpa [message_init, show (2:Nat)^16 = 256^2 by norm_num] using this
  · have : seq % 2^32 < 2^32 := Nat.mod_lt _ (by norm_num)
    simpa [message_init, show (2:Nat)^32 = 256^4 by norm_num] using this
  · have : now % 2^64 < 2^64 := Nat.mod_lt _ (by norm_num)
    simpa [message_init, show (2:Nat)^64 = 256^8 by norm_num] using this

/-! ## Endpoint (endpoint_open / endpoint_close)

```c
static int endpoint_open(struct in_addr local_addr)
{
    fd = socket(AF_INET, SOCK_RAW, IPPROTO_LLPRC);
    if (fd < 0) { ... ; return -1; }
    ...
    if (bind(fd, ...) < 0) { close(fd); ... ; return -1; }
    return fd;
}
```

The operating system is abstracted as an oracle: `socketResult` is the file
descriptor `socket` would return (`none` when creation fails, i.e. the call
returns a negative value), and `bindOk` says whether `bind` succeeds.  The
resource ledger records every `socket` and `close` call in order. -/

/-- A resource event: acquisition or release of a transport handle. -/
inductive SockEvent where
  | sockNew (fd : Nat)
  | sockClose (fd : Nat)
  deriving DecidableEq, Repr

/-- Abstract outcome of the OS calls made by `endpoint_open`. -/
structure OsOracle where
  socketResult : Option Nat
  bindOk : Bool

/-- `endpoint_open`, returning the C result (`fd` or `-1`) together with the
ledger of resource events it performed. -/
def endpoint_open (os : OsOracle) : Int × List SockEvent :=
  match os.socketResult with
  | none => (-1, [])
  | some fd =>
    if os.bindOk then ((fd : Int), [SockEvent.sockNew fd])
    else (-1, [SockEvent.sockNew fd, SockEvent.sockClose fd])

/-- File descriptors still open after processing a ledger, starting from a
set of already-open descriptors. -/
def openFds : List Nat → List SockEvent → List Nat
  | acc, [] => acc
  | acc, SockEvent.sockNew fd :: rest => openFds (acc ++ [fd]) rest
  | acc, SockEvent.sockClose fd :: rest => openFds (acc.erase fd) rest

/-- File descriptors left open by a ledger that started with none. -/
def openAfter (evs : List SockEvent) : List Nat := openFds [] evs

/-! ## Heartbeat timer and event loop (timer / server)

The loop body of `server` is modelled as a function of one iteration.  The
asynchronous SIGALRM handler `timer` is the state transformation
`timerFire`; handler invocations are interleaved between loop steps (the
handler only sets the single `heartbeat` flag, the one datum shared with
the loop).  `poll`'s outcome, `recvfrom`'s outcome and `sendto`'s outcome
are oracle inputs.  `recvfrom` on a datagram socket is modelled per its
POSIX semantics: the first `min (length of datagram) 24` bytes of the
datagram are stored into the buffer (excess bytes of a long datagram are
discarded silently; the rest of the buffer keeps its previous contents)
and that count is returned.  The observable behaviour of an iteration is
the ordered list of `Action`s it performs. -/

/-- Which address a `message_dump` line is printed with: the receive path
passes `&src` (the datagram's sender), the send path passes `&dst` (the
configured remote). -/
inductive Peer where
  | src
  | dst
  deriving DecidableEq, Repr

/-- One observable step of the loop body, in program order. -/
inductive Action where
  | reportRecvError
  | reportReceived (n : Nat)
  | dumpMessage (p : Peer) (h : rpc_message_header)
  | clearHeartbeat
  | sendBytes (bs : List Nat)
  | reportSent (n : Nat)
  | reportSendError
  deriving DecidableEq, Repr

/-- The loop's mutable state: the `heartbeat` flag (shared with the signal
handler), `message_init`'s static counter, and the `msg` buffer bytes. -/
structure LoopState where
  heartbeat : Bool
  seq : Nat
  msg : List Nat
  deriving DecidableEq, Repr

/-- Outcome of the `poll` call: `failed` iff `poll` returned a negative
value; `pollin`/`pollout` are the `POLLIN`/`POLLOUT` readiness bits of
`revents`.  `poll` only reports events that were requested, and `POLLOUT`
is requested iff the `heartbeat` flag is set when the loop builds the
`pollfd`; `iteration` accounts for that gating. -/
structure PollResult where
  failed : Bool
  pollin : Bool
  pollout : Bool
  deriving DecidableEq, Repr

/-- The SIGALRM handler `timer`: sets the `heartbeat` flag (and re-arms the
alarm, which has no effect on the modelled state). -/
def timerFire (s : LoopState) : LoopState := ⟨true, s.seq, s.msg⟩

/-- Contents of the `msg` buffer after `recvfrom` stored datagram `d` into
it (POSIX datagram truncation semantics, buffer size 24). -/
def recvIntoBuf (msg d : List Nat) : List Nat :=
  d.take headerWireSize ++ msg.drop (min d.length headerWireSize)

/-- The `POLLIN` branch of the loop body: `recvfrom` plus its reporting.
Returns the new buffer contents and the actions performed.  A negative
`recvfrom` result reports an error; any other result — whatever the
datagram's size — is reported as a received message and dumped. -/
def recvActions (hostBE : Bool) (msg : List Nat) : Except Unit (List Nat) → List Nat × List Action
  | Except.error _ => (msg, [Action.reportRecvError])
  | Except.ok d =>
      (recvIntoBuf msg d,
       [Action.reportReceived (min d.length headerWireSize),
        Action.dumpMessage Peer.src (deserializeHeader hostBE (recvIntoBuf msg d))])

/-- One iteration of the `server` loop body, from the `poll` call to the end
of the `POLLOUT` branch.  `rr` is `recvfrom`'s outcome (consulted only when
`POLLIN` is ready), `sendOk` is `sendto`'s outcome.  The `POLLOUT` branch
runs only when the `heartbeat` flag was set at the top of the iteration
(otherwise `POLLOUT` was never requested from `poll`): it first clears the
flag, then builds a fresh `ECHO_REQ` via `message_init` into the `msg`
buffer, then sends the buffer's 24 bytes and reports the result. -/
def iteration (hostBE : Bool) (s : LoopState) (pr : PollResult)
    (rr : Except Unit (List Nat)) (sendOk : Bool) (now : Nat) :
    LoopState × List Action :=
  if pr.failed then (s, [])
  else if s.heartbeat && pr.pollout then
    (⟨false, (message_init s.seq RPC_MESSAGE_ECHO_REQ now).2,
       serializeHeader hostBE (message_init s.seq RPC_MESSAGE_ECHO_REQ now).1⟩,
     (if pr.pollin then recvActions hostBE s.msg rr else (s.msg, [])).2 ++
       (Action.clearHeartbeat ::
        Action.sendBytes (serializeHeader hostBE (message_init s.seq RPC_MESSAGE_ECHO_REQ now).1) ::
        (if sendOk then
            [Action.reportSent headerWireSize,
             Action.dumpMessage Peer.dst (message_init s.seq RPC_MESSAGE_ECHO_REQ now).1]
          else [Action.reportSendError])))
  else
    (⟨s.heartbeat, s.seq, (if pr.pollin then recvActions hostBE s.msg rr else (s.msg, [])).1⟩,
     (if pr.pollin then recvActions hostBE s.msg rr else (s.msg, [])).2)

/-- Does the action perform a `sendto`? -/
def isSendAct : Action → Bool
  | Action.sendBytes _ => true
  | _ => false

/-- Actions belonging to the inbound (`POLLIN`) branch. -/
def isInboundAct : Action → Bool
  | Action.reportRecvError => true
  | Action.reportReceived _ => true
  | Action.dumpMessage Peer.src _ => true
  | _ => false

/-- No `sendto` happens before the first clearing of the heartbeat flag. -/
def clearedBeforeSend : List Action → Bool
  | [] => true
  | a :: rest =>
      if a = Action.clearHeartbeat then true
      else !(isSendAct a) && clearedBeforeSend rest

/-! ## Helper lemmas about the loop model -/

theorem recvActions_acts (hostBE : Bool) (msg : List Nat) (rr : Except Unit (List Nat))
    (a : Action) (ha : a ∈ (recvActions hostBE msg rr).2) :
    isSendAct a = false ∧ a ≠ Action.clearHeartbeat ∧ isInboundAct a = true := by
  cases rr with
  | error e =>
    simp only [recvActions, List.mem_singleton] at ha
    subst ha
    exact ⟨rfl, fun hc => Action.noConfusion hc, rfl⟩
  | ok d =>
    simp only [recvActions, List.mem_cons, List.mem_singleton, List.not_mem_nil, or_false] at ha
    rcases ha with ha | ha <;> subst ha
    · exact ⟨rfl, fun hc => Action.noConfusion hc, rfl⟩
    · exact ⟨rfl, fun hc => Action.noConfusion hc, rfl⟩

theorem timerFire_iterate_heartbeat (s : LoopState) (n : Nat) (hn : 1 ≤ n) :
    (timerFire^[n] s).heartbeat = true := by
  cases n with
  | zero => omega
  | succ m => rw [Function.iterate_succ_apply']; rfl

theorem timerFire_iterate_seq (s : LoopState) (n : Nat) :
    (timerFire^[n] s).seq = s.seq := by
  induction n with
  | zero => rfl
  | succ m ih => rw [Function.iterate_succ_apply', timerFire]; exact ih

theorem clearedBeforeSend_of_sendFree (l1 rest : List Action)
    (h : ∀ a ∈ l1, isSendAct a = false) :
    clearedBeforeSend (l1 ++ Action.clearHeartbeat :: rest) = true := by
  induction l1 with
  | nil => simp [clearedBeforeSend]
  | cons x xs ih =>
    by_cases hx : x = Action.clearHeartbeat
    · simp [clearedBeforeSend, hx]
    · have hxs : isSendAct x = false := h x (List.mem_cons_self x xs)
      have ihx := ih (fun a ha => h a (List.mem_cons_of_mem x ha))
      simp [clearedBeforeSend, hx, hxs, ihx]

theorem countP_eq_zero_of_all (l : List Action) (p : Action → Bool)
    (h : ∀ a ∈ l, p a = false) : l.countP p = 0 :=
  List.countP_eq_zero.mpr (fun a ha => by simp [h a ha])

/-- If `p` never holds in the second half and `q` never holds in the first
half, then every `p`-position comes strictly before every `q`-position. -/
theorem partitionIndexLt {α : Type} (l1 l2 : List α) (p q : α → Bool)
    (h2 : ∀ a ∈ l2, p a = false) (h1 : ∀ a ∈ l1, q a = false)
    (i j : Nat) (a b : α)
    (ha : (l1 ++ l2).get? i = some a) (hpa : p a = true)
    (hb : (l1 ++ l2).get? j = some b) (hqb : q b = true) :
    i < j := by
  have hi : i < l1.length := by
    by_contra hge
    push_neg at hge
    rw [List.get?_append_right hge] at ha
    have hmem : a ∈ l2 := List.get?_mem ha
    rw [h2 a hmem] at hpa
    exact Bool.noConfusion hpa
  have hj : l1.length ≤ j := by
    by_contra hlt
    push_neg at hlt
    rw [List.get?_append hlt] at hb
    have hmem : b ∈ l1 := List.get?_mem hb
    rw [h1 b hmem] at hqb
    exact Bool.noConfusion hqb
  omega

/-! ## Closed form of the sequence counter -/

theorem seqAfterCalls_closed (k : Nat) : seqAfterCalls k = (k + 1) % 2^32 := by
  induction k with
  | zero => norm_num [seqAfterCalls]
  | succ m ih =>
    show (seqAfterCalls m + 1) % 2^32 = (m + 1 + 1) % 2^32
    rw [ih, Nat.mod_add_mod]

theorem nthSeq_closed (k : Nat) (hk : 1 ≤ k) : nthSeq k = k % 2^32 := by
  show seqAfterCalls (k - 1) % 2^32 = k % 2^32
  rw [seqAfterCalls_closed, Nat.mod_mod_of_dvd _ dvd_rfl, Nat.sub_add_cancel hk]

/-! ## Claim theorems -/

/-- C1, counterexample: the claim as stated asserts that every encoded
message is big-endian on the wire.  The source performs no byte-order
conversion, so on a little-endian host (`hostBE = false`) the encoded bytes
of a header with `type = 1` differ from the network-byte-order layout the
spec describes: the first two wire bytes are `[1, 0]`, not `[0, 1]`. -/
theorem wire_bigEndian_cex :
    serializeHeader false ⟨1, 0, 1, 24, 0, 0⟩ ≠ specWireBytes ⟨1, 0, 1, 24, 0, 0⟩ := by
  decide

/-- C1, amended: every encoded message put on the wire is exactly 24 bytes,
with the six fields at the packed offsets 0, 2, 6, 10, 12, 20 in the exact
declared order with no inter-field padding, each multi-byte integer field
in the host's native byte order (the code performs no host-to-network
conversion); the layout coincides with the spec's network-byte-order
layout exactly when the host is big-endian. -/
theorem wire_layout (hostBE : Bool) (h : rpc_message_header) :
    (serializeHeader hostBE h).length = headerWireSize ∧
    (serializeHeader hostBE h).take 2 = fieldBytes hostBE 2 h.type ∧
    ((serializeHeader hostBE h).drop 2).take 4 = fieldBytes hostBE 4 h.endpoint_id ∧
    ((serializeHeader hostBE h).drop 6).take 4 = fieldBytes hostBE 4 h.sequence_id ∧
    ((serializeHeader hostBE h).drop 10).take 2 = fieldBytes hostBE 2 h.length ∧
    ((serializeHeader hostBE h).drop 12).take 8 = fieldBytes hostBE 8 h.timestamp ∧
    ((serializeHeader hostBE h).drop 20).take 4 = fieldBytes hostBE 4 h.crc32 ∧
    (hostBE = true → serializeHeader hostBE h = specWireBytes h) := by
  obtain ⟨s1, s2, s3, s4, s5, s6, s7⟩ := serializeHeader_slices hostBE h
  exact ⟨s7, s1, s2, s3, s4, s5, s6, fun hbe => by subst hbe; rfl⟩

/-- C1, witness for `wire_layout` at a concrete header on a big-endian
host. -/
theorem wire_layout_witness :
    (serializeHeader true ⟨1, 0, 1, 24, 0, 0⟩).length = headerWireSize ∧
    serializeHeader true ⟨1, 0, 1, 24, 0, 0⟩ = specWireBytes ⟨1, 0, 1, 24, 0, 0⟩ :=
  ⟨(wire_layout true ⟨1, 0, 1, 24, 0, 0⟩).1,
   (wire_layout true ⟨1, 0, 1, 24, 0, 0⟩).2.2.2.2.2.2.2 rfl⟩

/-- C5: for every header built by `message_init` (any counter value, type
and clock reading), reading the packed struct back from its own encoded
bytes reproduces every field exactly, on either host byte order, and the
`crc32` field is always 0. -/
theorem encode_decode_roundTrip (hostBE : Bool) (seq t now : Nat) :
    deserializeHeader hostBE (serializeHeader hostBE (message_init seq t now).1) =
      (message_init seq t now).1 ∧
    (message_init seq t now).1.crc32 = 0 := by
  obtain ⟨b1, b2, b3, b4, b5, b6⟩ := message_init_bounds seq t now
  exact ⟨deserialize_serialize hostBE _ b1 b2 b3 b4 b5 b6, rfl⟩

/-- C6: `message_init` always produces a header with `endpoint_id = 0`, the
given type, `length` equal to the fixed 24-byte wire size (which is indeed
the length of the serialized message), `timestamp` equal to the current
wall-clock seconds, and `crc32 = 0`.  It is a total function: there are no
error conditions. -/
theorem message_init_fields (seq t now : Nat) (ht : t < 2^16) (hnow : now < 2^64) :
    (message_init seq t now).1.endpoint_id = 0 ∧
    (message_init seq t now).1.type = t ∧
    (message_init seq t now).1.length = headerWireSize ∧
    (∀ hostBE, (serializeHeader hostBE (message_init seq t now).1).length = headerWireSize) ∧
    (message_init seq t now).1.timestamp = now ∧
    (message_init seq t now).1.crc32 = 0 :=
  ⟨rfl, Nat.mod_eq_of_lt ht, rfl, fun hostBE => serializeHeader_length hostBE _,
   Nat.mod_eq_of_lt hnow, rfl⟩

/-- C6, witness for `message_init_fields` at concrete inputs. -/
theorem message_init_fields_witness :
    (message_init 1 0 1700000000).1.endpoint_id = 0 ∧
    (message_init 1 0 1700000000).1.type = 0 ∧
    (message_init 1 0 1700000000).1.length = headerWireSize ∧
    (∀ hostBE, (serializeHeader hostBE (message_init 1 0 1700000000).1).length = headerWireSize) ∧
    (message_init 1 0 1700000000).1.timestamp = 1700000000 ∧
    (message_init 1 0 1700000000).1.crc32 = 0 :=
  message_init_fields 1 0 1700000000 (by norm_num) (by norm_num)

/-- C3, counterexample: the claim as stated quantifies over every sequence
of N encode calls; at the 2^32-th call the `uint32_t` counter has wrapped,
so that call stores `sequence_id = 0`, which is neither equal to its call
index nor greater than the previous call's `sequence_id = 2^32 - 1`. -/
theorem sequence_wrap_cex :
    nthSeq (2^32) = 0 ∧ nthSeq (2^32) ≠ 2^32 ∧ ¬ (nthSeq (2^32 - 1) < nthSeq (2^32)) := by
  have h1 : nthSeq (2^32) = 0 := by
    rw [nthSeq_closed (2^32) (by norm_num), Nat.mod_self]
  have h2 : nthSeq (2^32 - 1) = 2^32 - 1 := by
    rw [nthSeq_closed (2^32 - 1) (by norm_num)]
    exact Nat.mod_eq_of_lt (Nat.sub_lt (by norm_num) one_pos)
  refine ⟨h1, by rw [h1]; norm_num, by rw [h1, h2]; omega⟩

/-- C3, amended: within the first 2^32 - 1 encode calls of a process
lifetime the returned `sequence_id` values are exactly the call index
(hence strictly increasing starting at 1); the counter wraps to 0 on the
2^32-th call.  Receiving never touches the counter: an iteration whose
heartbeat flag is clear (so no send happens) leaves `seq` unchanged, and
the timer itself never touches it either. -/
theorem sequence_monotone_no_wrap :
    (∀ k, 1 ≤ k → k ≤ 2^32 - 1 → nthSeq k = k) ∧
    (∀ j k, 1 ≤ j → j < k → k ≤ 2^32 - 1 → nthSeq j < nthSeq k) ∧
    (∀ hostBE s pr rr sendOk now, s.heartbeat = false →
      (iteration hostBE s pr rr sendOk now).1.seq = s.seq) ∧
    (∀ s, (timerFire s).seq = s.seq) := by
  have hval : ∀ k, 1 ≤ k → k ≤ 2^32 - 1 → nthSeq k = k := by
    intro k hk1 hk2
    rw [nthSeq_closed k hk1]
    exact Nat.mod_eq_of_lt (lt_of_le_of_lt hk2 (Nat.sub_lt (by norm_num) one_pos))
  refine ⟨hval, ?_, ?_, fun s => rfl⟩
  · intro j k hj hjk hk
    rw [hval j hj (le_of_lt (lt_of_lt_of_le hjk hk)), hval k (by omega) hk]
    exact hjk
  · intro hostBE s pr rr sendOk now hb
    unfold iteration
    by_cases hf : pr.failed
    · simp [hf]
    · simp [hf, hb]

/-- C3, witness for `sequence_monotone_no_wrap` at concrete inputs: the
third encode call returns 3, calls 3 and 4 are strictly increasing, and a
receive-only iteration (heartbeat clear) leaves the counter unchanged. -/
theorem sequence_monotone_no_wrap_witness :
    nthSeq 3 = 3 ∧ nthSeq 3 < nthSeq 4 ∧
    (iteration false ⟨false, 7, List.replicate 24 0⟩ ⟨false, true, false⟩
      (Except.ok [1, 2, 3]) true 0).1.seq = 7 :=
  ⟨sequence_monotone_no_wrap.1 3 (by norm_num) (by norm_num),
   sequence_monotone_no_wrap.2.1 3 4 (by norm_num) (by norm_num) (by norm_num),
   sequence_monotone_no_wrap.2.2.1 false ⟨false, 7, List.replicate 24 0⟩ ⟨false, true, false⟩
     (Except.ok [1, 2, 3]) true 0 rfl⟩

/-- C9: the sequence counter is a 32-bit unsigned integer incremented with
wraparound modulo 2^32: the `k`-th encode call stores `k % 2^32`, the call
after the one returning 2^32 - 1 returns 0, and strict monotonicity holds
precisely up to the first 2^32 - 1 calls. -/
theorem sequence_wraparound :
    (∀ k, 1 ≤ k → nthSeq k = k % 2^32) ∧
    nthSeq (2^32 - 1) = 2^32 - 1 ∧
    nthSeq (2^32) = 0 ∧
    (∀ j k, 1 ≤ j → j < k → k ≤ 2^32 - 1 → nthSeq j < nthSeq k) ∧
    ¬ (nthSeq (2^32 - 1) < nthSeq (2^32)) := by
  have h1 : nthSeq (2^32) = 0 := by
    rw [nthSeq_closed (2^32) (by norm_num), Nat.mod_self]
  have h2 : nthSeq (2^32 - 1) = 2^32 - 1 := by
    rw [nthSeq_closed (2^32 - 1) (by norm_num)]
    exact Nat.mod_eq_of_lt (Nat.sub_lt (by norm_num) one_pos)
  have hval : ∀ k, 1 ≤ k → k ≤ 2^32 - 1 → nthSeq k = k := by
    intro k hk1 hk2
    rw [nthSeq_closed k hk1]
    exact Nat.mod_eq_of_lt (lt_of_le_of_lt hk2 (Nat.sub_lt (by norm_num) one_pos))
  refine ⟨nthSeq_closed, h2, h1, ?_, by rw [h1, h2]; omega⟩
  intro j k hj hjk hk
  rw [hval j hj (le_of_lt (lt_of_lt_of_le hjk hk)), hval k (by omega) hk]
  exact hjk

/-- C9, witness for `sequence_wraparound` at concrete inputs. -/
theorem sequence_wraparound_witness :
    nthSeq 5 = 5 % 2^32 ∧ nthSeq 5 < nthSeq 6 :=
  ⟨sequence_wraparound.1 5 (by norm_num),
   sequence_wraparound.2.2.2.1 5 6 (by norm_num) (by norm_num) (by norm_num)⟩

/-- C7: `endpoint_open` acquires no resource when socket creation fails and
returns the error value -1; when binding fails it closes the
already-created descriptor before returning -1, so no handle is left open
on either failure path; on success it returns the (non-negative) opened
descriptor, which is the only handle left open. -/
theorem endpoint_open_no_leak (os : OsOracle) :
    (os.socketResult = none →
      (endpoint_open os).1 = -1 ∧ openAfter (endpoint_open os).2 = []) ∧
    (∀ fd, os.socketResult = some fd → os.bindOk = false →
      (endpoint_open os).1 = -1 ∧ openAfter (endpoint_open os).2 = []) ∧
    (∀ fd, os.socketResult = some fd → os.bindOk = true →
      (endpoint_open os).1 = (fd : Int) ∧ 0 ≤ (endpoint_open os).1 ∧
      openAfter (endpoint_open os).2 = [fd]) := by
  refine ⟨?_, ?_, ?_⟩
  · intro hnone
    simp [endpoint_open, hnone, openAfter, openFds]
  · intro fd hsome hbind
    simp [endpoint_open, hsome, hbind, openAfter, openFds]
  · intro fd hsome hbind
    simp [endpoint_open, hsome, hbind, openAfter, openFds]

/-- C7, witness for `endpoint_open_no_leak`: the bind-failure path on a
concrete oracle releases the created descriptor, and the success path
returns it open. -/
theorem endpoint_open_no_leak_witness :
    ((endpoint_open ⟨some 3, false⟩).1 = -1 ∧ openAfter (endpoint_open ⟨some 3, false⟩).2 = []) ∧
    ((endpoint_open ⟨some 3, true⟩).1 = (3 : Int) ∧ 0 ≤ (endpoint_open ⟨some 3, true⟩).1 ∧
      openAfter (endpoint_open ⟨some 3, true⟩).2 = [3]) :=
  ⟨(endpoint_open_no_leak ⟨some 3, false⟩).2.1 3 rfl rfl,
   (endpoint_open_no_leak ⟨some 3, true⟩).2.2 3 rfl rfl⟩

/-! ### C2 / C10: how the receive path treats short and long datagrams -/

/-- C2, counterexample: the claim as stated says a datagram shorter than 24
bytes fails with `ShortRead`, assigns no field, and is not reported as
received.  On a concrete 10-byte datagram, the loop body instead reports
it as a successfully received message of 10 bytes (the code only checks
`recvfrom`'s result for negativity), does not report a receive error, and
overwrites the first 10 bytes of the header buffer (partial field
assignment). -/
theorem short_datagram_cex :
    Action.reportReceived 10 ∈
      (iteration false ⟨false, 1, List.replicate 24 7⟩ ⟨false, true, false⟩
        (Except.ok [9, 9, 9, 9, 9, 9, 9, 9, 9, 9]) true 0).2 ∧
    (iteration false ⟨false, 1, List.replicate 24 7⟩ ⟨false, true, false⟩
      (Except.ok [9, 9, 9, 9, 9, 9, 9, 9, 9, 9]) true 0).1.msg ≠ List.replicate 24 7 ∧
    Action.reportRecvError ∉
      (iteration false ⟨false, 1, List.replicate 24 7⟩ ⟨false, true, false⟩
        (Except.ok [9, 9, 9, 9, 9, 9, 9, 9, 9, 9]) true 0).2 := by
  decide

/-- C2, amended: a datagram shorter than the 24-byte header size is not
rejected — there is no `ShortRead` error anywhere in the code.  `recvfrom`
stores the datagram's bytes over the start of the header buffer (the
remaining bytes keep their previous contents, i.e. a partial field
assignment does happen), and the loop reports the message as successfully
received together with its byte count, then dumps the header read from
the partially-overwritten buffer. -/
theorem short_datagram_reported (hostBE : Bool) (s : LoopState) (pr : PollResult)
    (d : List Nat) (sendOk : Bool) (now : Nat)
    (hf : pr.failed = false) (hin : pr.pollin = true) (hb : s.heartbeat = false)
    (hd : d.length < headerWireSize) :
    (iteration hostBE s pr (Except.ok d) sendOk now).1.msg = d ++ s.msg.drop d.length ∧
    (iteration hostBE s pr (Except.ok d) sendOk now).2 =
      [Action.reportReceived d.length,
       Action.dumpMessage Peer.src (deserializeHeader hostBE (d ++ s.msg.drop d.length))] := by
  have hmin : min d.length headerWireSize = d.length := Nat.min_eq_left (le_of_lt hd)
  have htake : d.take headerWireSize = d := List.take_of_length_le (le_of_lt hd)
  constructor <;> simp [iteration, hf, hb, hin, recvActions, recvIntoBuf, hmin, htake]

/-- C2, witness for `short_datagram_reported` on a concrete 2-byte
datagram. -/
theorem short_datagram_reported_witness :
    (iteration false ⟨false, 1, List.replicate 24 7⟩ ⟨false, true, false⟩
      (Except.ok [9, 8]) true 0).1.msg = [9, 8] ++ (List.replicate 24 7).drop 2 ∧
    (iteration false ⟨false, 1, List.replicate 24 7⟩ ⟨false, true, false⟩
      (Except.ok [9, 8]) true 0).2 =
      [Action.reportReceived 2,
       Action.dumpMessage Peer.src
         (deserializeHeader false ([9, 8] ++ (List.replicate 24 7).drop 2))] :=
  short_datagram_reported false ⟨false, 1, List.replicate 24 7⟩ ⟨false, true, false⟩
    [9, 8] true 0 rfl rfl rfl (by decide)

/-- C10: a datagram longer than the 24-byte header does not fail: exactly
its first 24 bytes are stored into the header buffer, the excess bytes are
silently discarded (POSIX datagram truncation; the code passes no
`MSG_TRUNC`), and the message is reported as usual — nothing in the code
bounds the inbound datagram size. -/
theorem long_datagram_truncated (hostBE : Bool) (s : LoopState) (pr : PollResult)
    (d : List Nat) (sendOk : Bool) (now : Nat)
    (hf : pr.failed = false) (hin : pr.pollin = true) (hb : s.heartbeat = false)
    (hmsg : s.msg.length = headerWireSize) (hd : headerWireSize < d.length) :
    (iteration hostBE s pr (Except.ok d) sendOk now).1.msg = d.take headerWireSize ∧
    (iteration hostBE s pr (Except.ok d) sendOk now).2 =
      [Action.reportReceived headerWireSize,
       Action.dumpMessage Peer.src (deserializeHeader hostBE (d.take headerWireSize))] := by
  have hmin : min d.length headerWireSize = headerWireSize := Nat.min_eq_right (le_of_lt hd)
  have hdrop : s.msg.drop headerWireSize = [] := by
    rw [← hmsg]; exact List.drop_length s.msg
  constructor <;> simp [iteration, hf, hb, hin, recvActions, recvIntoBuf, hmin, hdrop]

/-- C10, witness for `long_datagram_truncated` on a concrete 25-byte
datagram. -/
theorem long_datagram_truncated_witness :
    (iteration false ⟨false, 1, List.replicate 24 0⟩ ⟨false, true, false⟩
      (Except.ok (List.replicate 25 1)) true 0).1.msg = (List.replicate 25 1).take headerWireSize ∧
    (iteration false ⟨false, 1, List.replicate 24 0⟩ ⟨false, true, false⟩
      (Except.ok (List.replicate 25 1)) true 0).2 =
      [Action.reportReceived headerWireSize,
       Action.dumpMessage Peer.src
         (deserializeHeader false ((List.replicate 25 1).take headerWireSize))] :=
  long_datagram_truncated false ⟨false, 1, List.replicate 24 0⟩ ⟨false, true, false⟩
    (List.replicate 25 1) true 0 rfl rfl rfl (by decide) (by decide)

/-! ### C4 / C8: the POLLOUT branch and intra-iteration ordering -/

theorem sendTail_not_inbound (buf : List Nat) (hm : rpc_message_header) (sendOk : Bool)
    (x : Action)
    (hx : x ∈ Action.clearHeartbeat :: Action.sendBytes buf ::
      (if sendOk then [Action.reportSent headerWireSize, Action.dumpMessage Peer.dst hm]
       else [Action.reportSendError])) :
    isInboundAct x = false := by
  cases sendOk
  · simp at hx
    rcases hx with rfl | rfl | rfl <;> rfl
  · simp at hx
    rcases hx with rfl | rfl | rfl | rfl <;> rfl

theorem sendTail_countP (buf : List Nat) (hm : rpc_message_header) (sendOk : Bool) :
    (Action.clearHeartbeat :: Action.sendBytes buf ::
      (if sendOk then [Action.reportSent headerWireSize, Action.dumpMessage Peer.dst hm]
       else [Action.reportSendError])).countP isSendAct = 1 := by
  cases sendOk <;> simp [List.countP_cons, isSendAct]

theorem sendTail_mem_sendBytes (buf : List Nat) (hm : rpc_message_header) (sendOk : Bool)
    (bs : List Nat)
    (hx : Action.sendBytes bs ∈ Action.clearHeartbeat :: Action.sendBytes buf ::
      (if sendOk then [Action.reportSent headerWireSize, Action.dumpMessage Peer.dst hm]
       else [Action.reportSendError])) :
    bs = buf := by
  cases sendOk <;> simpa using hx

/-- C4: heartbeat coalescing.  If the timer fires any number `n ≥ 2` of
times before the loop next checks the flag, the next iteration that sees
`POLLOUT` writable performs exactly one `sendto`, the flag is false
afterwards, the flag-clearing action precedes the send in program order,
and the (single) message sent is an `ECHO_REQ`. -/
theorem heartbeat_coalesced (hostBE : Bool) (s : LoopState) (n : Nat) (pr : PollResult)
    (rr : Except Unit (List Nat)) (sendOk : Bool) (now : Nat)
    (hn : 2 ≤ n) (hf : pr.failed = false) (hout : pr.pollout = true) :
    (iteration hostBE (timerFire^[n] s) pr rr sendOk now).2.countP isSendAct = 1 ∧
    (iteration hostBE (timerFire^[n] s) pr rr sendOk now).1.heartbeat = false ∧
    clearedBeforeSend (iteration hostBE (timerFire^[n] s) pr rr sendOk now).2 = true ∧
    (∀ bs, Action.sendBytes bs ∈ (iteration hostBE (timerFire^[n] s) pr rr sendOk now).2 →
      (deserializeHeader hostBE bs).type = RPC_MESSAGE_ECHO_REQ) := by
  have hb : (timerFire^[n] s).heartbeat = true := timerFire_iterate_heartbeat s n (by omega)
  have hst : (iteration hostBE (timerFire^[n] s) pr rr sendOk now).1.heartbeat = false := by
    simp [iteration, hf, hb, hout]
  have hacts : (iteration hostBE (timerFire^[n] s) pr rr sendOk now).2 =
      (if pr.pollin then recvActions hostBE (timerFire^[n] s).msg rr
        else ((timerFire^[n] s).msg, [])).2 ++
      (Action.clearHeartbeat ::
       Action.sendBytes
         (serializeHeader hostBE (message_init (timerFire^[n] s).seq RPC_MESSAGE_ECHO_REQ now).1) ::
       (if sendOk then
          [Action.reportSent headerWireSize,
           Action.dumpMessage Peer.dst (message_init (timerFire^[n] s).seq RPC_MESSAGE_ECHO_REQ now).1]
        else [Action.reportSendError])) := by
    simp [iteration, hf, hb, hout]
  have hsendfree : ∀ x ∈ (if pr.pollin then recvActions hostBE (timerFire^[n] s).msg rr
      else ((timerFire^[n] s).msg, [])).2, isSendAct x = false := by
    intro x hx
    by_cases hin : pr.pollin = true
    · rw [if_pos hin] at hx
      exact (recvActions_acts _ _ _ x hx).1
    · rw [if_neg hin] at hx
      simp at hx
  refine ⟨?_, hst, ?_, ?_⟩
  · rw [hacts, List.countP_append, countP_eq_zero_of_all _ _ hsendfree, sendTail_countP]
  · rw [hacts]
    exact clearedBeforeSend_of_sendFree _ _ hsendfree
  · intro bs hmem
    rw [hacts] at hmem
    rcases List.mem_append.mp hmem with hm1 | hm2
    · have hcontra := hsendfree _ hm1
      simp [isSendAct] at hcontra
    · have hbs := sendTail_mem_sendBytes _ _ _ _ hm2
      subst hbs
      obtain ⟨b1, b2, b3, b4, b5, b6⟩ :=
        message_init_bounds (timerFire^[n] s).seq RPC_MESSAGE_ECHO_REQ now
      rw [deserialize_serialize hostBE _ b1 b2 b3 b4 b5 b6]
      rfl

/-- C4, witness for `heartbeat_coalesced`: two timer fires before a
writable iteration yield exactly one send, flag cleared before it. -/
theorem heartbeat_coalesced_witness :
    (iteration false (timerFire^[2] ⟨false, 1, List.replicate 24 0⟩) ⟨false, false, true⟩
      (Except.ok []) true 0).2.countP isSendAct = 1 ∧
    (iteration false (timerFire^[2] ⟨false, 1, List.replicate 24 0⟩) ⟨false, false, true⟩
      (Except.ok []) true 0).1.heartbeat = false ∧
    clearedBeforeSend (iteration false (timerFire^[2] ⟨false, 1, List.replicate 24 0⟩)
      ⟨false, false, true⟩ (Except.ok []) true 0).2 = true ∧
    (∀ bs, Action.sendBytes bs ∈ (iteration false (timerFire^[2] ⟨false, 1, List.replicate 24 0⟩)
      ⟨false, false, true⟩ (Except.ok []) true 0).2 →
      (deserializeHeader false bs).type = RPC_MESSAGE_ECHO_REQ) :=
  heartbeat_coalesced false ⟨false, 1, List.replicate 24 0⟩ 2 ⟨false, false, true⟩
    (Except.ok []) true 0 (by norm_num) rfl rfl

/-- C8: within one iteration, inbound handling precedes outbound handling:
every inbound action (receive-error report, received-bytes report, or dump
of the received message) occurs at a strictly smaller position in the
iteration's action list than every `sendto`. -/
theorem inbound_before_send (hostBE : Bool) (s : LoopState) (pr : PollResult)
    (rr : Except Unit (List Nat)) (sendOk : Bool) (now : Nat)
    (i j : Nat) (a b : Action)
    (ha : (iteration hostBE s pr rr sendOk now).2.get? i = some a)
    (hpa : isInboundAct a = true)
    (hb : (iteration hostBE s pr rr sendOk now).2.get? j = some b)
    (hqb : isSendAct b = true) :
    i < j := by
  by_cases hf : pr.failed = true
  · have hempty : (iteration hostBE s pr rr sendOk now).2 = [] := by
      simp [iteration, hf]
    rw [hempty] at ha
    simp at ha
  · by_cases hho : (s.heartbeat && pr.pollout) = true
    · have hacts : (iteration hostBE s pr rr sendOk now).2 =
          (if pr.pollin then recvActions hostBE s.msg rr else (s.msg, [])).2 ++
          (Action.clearHeartbeat ::
           Action.sendBytes
             (serializeHeader hostBE (message_init s.seq RPC_MESSAGE_ECHO_REQ now).1) ::
           (if sendOk then
              [Action.reportSent headerWireSize,
               Action.dumpMessage Peer.dst (message_init s.seq RPC_MESSAGE_ECHO_REQ now).1]
            else [Action.reportSendError])) := by
        simp [iteration, hf, hho]
      rw [hacts] at ha hb
      refine partitionIndexLt _ _ isInboundAct isSendAct ?_ ?_ i j a b ha hpa hb hqb
      · intro x hx
        exact sendTail_not_inbound _ _ _ x hx
      · intro x hx
        by_cases hin : pr.pollin = true
        · rw [if_pos hin] at hx
          exact (recvActions_acts _ _ _ x hx).1
        · rw [if_neg hin] at hx
          simp at hx
    · have hacts : (iteration hostBE s pr rr sendOk now).2 =
          (if pr.pollin then recvActions hostBE s.msg rr else (s.msg, [])).2 := by
        simp [iteration, hf, hho]
      rw [hacts] at hb
      have hmem := List.get?_mem hb
      by_cases hin : pr.pollin = true
      · rw [if_pos hin] at hmem
        rw [(recvActions_acts _ _ _ b hmem).1] at hqb
        exact Bool.noConfusion hqb
      · rw [if_neg hin] at hmem
        simp at hmem

/-- C8, witness for `inbound_before_send`: in a concrete iteration that both
receives and sends, the received-bytes report (position 0) precedes the
send (position 3). -/
theorem inbound_before_send_witness : (0 : Nat) < 3 :=
  inbound_before_send false ⟨true, 1, List.replicate 24 0⟩ ⟨false, true, true⟩
    (Except.ok (List.replicate 24 2)) true 0 0 3
    (Action.reportReceived 24)
    (Action.sendBytes (serializeHeader false (message_init 1 RPC_MESSAGE_ECHO_REQ 0).1))
    (by decide) rfl (by decide) rfl

end LLRPC
